import Mathlib

/-!
Verification of the update-resolution engine of the `updater` repository.

The Go sources are shallowly embedded: pure string manipulation becomes
functions over `String` / `List Char`, network effects become explicit
inputs (the decoded response a call would have produced), and fallible Go
functions returning `(T, error)` become `Except String T`.
-/

deriving instance DecidableEq for Except

namespace Updater

/-! ## Basic string helpers mirroring the Go standard library -/

/-- Embeds `strings.HasPrefix s p` (used in the source only with `p = "v"`). -/
def goHasPre (s p : String) : Bool :=
  p.data.isPrefixOf s.data

/-- One step of substring search: embeds Go `strings.Contains` on rune lists.
`containsSub s sub` is true when `sub` occurs contiguously inside `s`. -/
def containsSub (s sub : List Char) : Bool :=
  if sub.isPrefixOf s then true
  else
    match s with
    | [] => false
    | _ :: rest => containsSub rest sub

/-- Embeds Go `strings.Contains`. -/
def goContains (s sub : String) : Bool :=
  containsSub s.data sub.data

/-- Embeds Go `strings.ToLower` on the ASCII range (the only range the
source ever distinguishes: it searches for the ASCII substrings "alpha",
"beta" and the OS/arch identifiers). -/
def goToLower (s : String) : String :=
  String.mk (s.data.map Char.toLower)

/-- Embeds Go `strings.Split` with a one-character separator (the source
splits only on "," and ";" and "/"). -/
def splitOn (sep : Char) : List Char → List (List Char)
  | [] => [[]]
  | c :: rest =>
    if c = sep then [] :: splitOn sep rest
    else
      match splitOn sep rest with
      | [] => [[c]]
      | g :: gs => (c :: g) :: gs

/-- Trims characters satisfying `p` from both ends of a list; embeds the
shape shared by Go `strings.TrimSpace` and `strings.Trim` with a cutset. -/
def trimList (p : Char → Bool) (l : List Char) : List Char :=
  (((l.dropWhile p).reverse.dropWhile p).reverse)

/-- The white-space set of Go `unicode.IsSpace` (ASCII part plus NEL and NBSP). -/
def isSpaceGo (c : Char) : Bool :=
  c = ' ' || c = '\t' || c = '\n' || c = '\r' || c = '\u000B' || c = '\u000C'
    || c = '\u0085' || c = '\u00A0'

/-! ## Embedding of `golang.org/x/mod/semver` (the comparison collaborator)

These definitions follow the `parse`/`compareInt`/`comparePrerelease`
functions of the vendored semver package byte for byte on the ASCII
alphabet those functions actually inspect. -/

/-- ASCII digit test, as the Go source's inline range checks. -/
def isDigitChar (c : Char) : Bool :=
  '0' ≤ c && c ≤ '9'

/-- Embeds semver `isIdentChar`. -/
def isIdentChar (c : Char) : Bool :=
  ('A' ≤ c && c ≤ 'Z') || ('a' ≤ c && c ≤ 'z') || ('0' ≤ c && c ≤ '9') || c = '-'

/-- Embeds semver `isBadNum`: an all-digit identifier longer than one
character with a leading zero. -/
def isBadNum (v : List Char) : Bool :=
  v.all isDigitChar && decide (1 < v.length) && v.headD ' ' = '0'

/-- Embeds semver `isNum`: all characters are digits. -/
def isNum (v : List Char) : Bool :=
  v.all isDigitChar

/-- Embeds semver `parseInt`: a nonempty digit run without a leading zero,
returned together with the unconsumed remainder. -/
def parseIntGo (v : List Char) : Option (List Char × List Char) :=
  match v with
  | [] => none
  | c :: rest =>
    if ¬ isDigitChar c then none
    else
      let t := c :: rest.takeWhile isDigitChar
      let r := rest.dropWhile isDigitChar
      if c = '0' ∧ t.length ≠ 1 then none
      else some (t, r)

/-- Splits a list at the first '+', keeping the '+' with the remainder;
mirrors the semver pre-release scan stopping at the build-metadata marker. -/
def takeUntilPlus (v : List Char) : List Char × List Char :=
  match v with
  | [] => ([], [])
  | c :: rest =>
    if c = '+' then ([], c :: rest)
    else
      let (a, b) := takeUntilPlus rest
      (c :: a, b)

/-- Embeds semver `parsePrerelease`: a '-' followed by nonempty dot-separated
identifiers made of ident characters, numeric identifiers carrying no leading
zero; scanning stops at a '+'. Returns the consumed text (with the '-') and
the remainder. -/
def parsePrereleaseGo (v : List Char) : Option (List Char × List Char) :=
  match v with
  | [] => none
  | c :: rest =>
    if c = '-' then
      let (body, r) := takeUntilPlus rest
      let idents := splitOn '.' body
      if idents.all (fun id => !id.isEmpty && id.all isIdentChar && !isBadNum id) then
        some (c :: body, r)
      else none
    else none

/-- Embeds semver `parseBuild`: a '+' followed by nonempty dot-separated
identifiers of ident characters, running to the end of the string. -/
def parseBuildGo (v : List Char) : Option (List Char × List Char) :=
  match v with
  | [] => none
  | c :: rest =>
    if c = '+' then
      let idents := splitOn '.' rest
      if idents.all (fun id => !id.isEmpty && id.all isIdentChar) then
        some (c :: rest, [])
      else none
    else none

/-- The fields of semver's `parsed` struct that `Compare` consults
(the display-only `short` and the ignored `build` text are kept implicit). -/
structure GoParsed where
  major : List Char
  minor : List Char
  patch : List Char
  prerelease : List Char
  deriving DecidableEq, Repr

/-- The tail of semver `parse` after the three dotted numbers: an optional
pre-release part, an optional build part, then the remainder must be empty. -/
def parseTail (major minor patch v3 : List Char) : Option GoParsed :=
  match v3 with
  | [] => some ⟨major, minor, patch, []⟩
  | c :: rest =>
    if c = '-' then
      match parsePrereleaseGo (c :: rest) with
      | none => none
      | some (pre, v4) =>
        match v4 with
        | [] => some ⟨major, minor, patch, pre⟩
        | c2 :: rest2 =>
          if c2 = '+' then
            match parseBuildGo (c2 :: rest2) with
            | none => none
            | some (_, v5) => if v5 = [] then some ⟨major, minor, patch, pre⟩ else none
          else none
    else if c = '+' then
      match parseBuildGo (c :: rest) with
      | none => none
      | some (_, v5) => if v5 = [] then some ⟨major, minor, patch, []⟩ else none
    else none

/-- Embeds semver `parse`: a leading 'v', then major[.minor[.patch]] with
omitted numbers defaulting to "0", then pre-release/build parts. -/
def parseGo (l : List Char) : Option GoParsed :=
  match l with
  | [] => none
  | c :: rest =>
    if c ≠ 'v' then none
    else
      match parseIntGo rest with
      | none => none
      | some (major, v1) =>
        match v1 with
        | [] => some ⟨major, ['0'], ['0'], []⟩
        | c1 :: v1' =>
          if c1 ≠ '.' then none
          else
            match parseIntGo v1' with
            | none => none
            | some (minor, v2) =>
              match v2 with
              | [] => some ⟨major, minor, ['0'], []⟩
              | c2 :: v2' =>
                if c2 ≠ '.' then none
                else
                  match parseIntGo v2' with
                  | none => none
                  | some (patch, v3) => parseTail major minor patch v3

/-- Lexicographic order on rune lists; embeds Go string `<` on the ASCII
identifiers the comparator feeds it. -/
def listLt : List Char → List Char → Bool
  | [], [] => false
  | [], _ :: _ => true
  | _ :: _, [] => false
  | a :: as, b :: bs => if a < b then true else if b < a then false else listLt as bs

/-- Embeds semver `compareInt`: shorter digit string first, then lexicographic. -/
def compareIntGo (x y : List Char) : Int :=
  if x = y then 0
  else if x.length < y.length then -1
  else if y.length < x.length then 1
  else if listLt x y then -1 else 1

/-- The per-identifier comparison inside semver `comparePrerelease`:
numeric identifiers sort before alphanumeric ones and among themselves by
length then lexicographically. -/
def cmpIdent (dx dy : List Char) : Int :=
  if isNum dx ≠ isNum dy then (if isNum dx then -1 else 1)
  else if isNum dx ∧ dx.length < dy.length then -1
  else if isNum dx ∧ dy.length < dx.length then 1
  else if listLt dx dy then -1 else 1

/-- The main loop of semver `comparePrerelease`, phrased over the
dot-separated identifier sequences the Go loop walks one `nextIdent` step at
a time: compare identifiers left to right; the side whose sequence runs out
first sorts first. -/
def cprIdents : List (List Char) → List (List Char) → Int
  | [], _ => -1
  | _ :: _, [] => 1
  | d1 :: r1, d2 :: r2 => if d1 ≠ d2 then cmpIdent d1 d2 else cprIdents r1 r2

/-- Embeds semver `comparePrerelease`: an empty pre-release (a normal
version) sorts after any pre-release; otherwise the '-' is skipped and the
dot-separated identifiers are compared in sequence. -/
def comparePrereleaseGo (x y : List Char) : Int :=
  if x = y then 0
  else if x = [] then 1
  else if y = [] then -1
  else cprIdents (splitOn '.' x.tail) (splitOn '.' y.tail)

/-- Embeds semver `Compare`: invalid versions compare equal to each other
and below every valid version; valid versions compare by major, minor,
patch, then pre-release. -/
def goSemverCompare (v w : String) : Int :=
  match parseGo v.data, parseGo w.data with
  | none, none => 0
  | none, some _ => -1
  | some _, none => 1
  | some pv, some pw =>
    if compareIntGo pv.major pw.major ≠ 0 then compareIntGo pv.major pw.major
    else if compareIntGo pv.minor pw.minor ≠ 0 then compareIntGo pv.minor pw.minor
    else if compareIntGo pv.patch pw.patch ≠ 0 then compareIntGo pv.patch pw.patch
    else comparePrereleaseGo pv.prerelease pw.prerelease

/-! ## Data model (`generic_http.go`) -/

/-- A release asset from the GitHub API (`ReleaseAsset`). -/
structure ReleaseAsset where
  Name : String
  DownloadURL : String
  deriving DecidableEq, Repr

/-- A release from the GitHub API (`Release`). -/
structure Release where
  TagName : String
  PreRelease : Bool
  Assets : List ReleaseAsset
  deriving DecidableEq, Repr

/-- The decoded `latest.json` record (`GenericUpdateInfo`); Go's JSON
decoder leaves absent fields as the empty string. -/
structure GenericUpdateInfo where
  Version : String
  URL : String
  deriving DecidableEq, Repr

/-! ## Version normalization and comparison (`updater.go`) -/

/-- Embeds `formatVersionForComparison`: a nonempty version without a
leading "v" gets one; everything else passes through. -/
def formatVersionForComparison (version : String) : String :=
  if version ≠ "" ∧ ¬ goHasPre version "v" then "v" ++ version
  else version

/-- The comparison the update check performs inline at its call sites:
normalize both versions, then semver-compare. -/
def compareVersions (a b : String) : Int :=
  goSemverCompare (formatVersionForComparison a) (formatVersionForComparison b)

/-- Embeds `CheckForNewerVersion`, with the release source's answer (the
decoded result the GitHub client call would return) passed as input.
Returns the release (when any) and the update-available flag, or the
fetch error. -/
def CheckForNewerVersion (fetched : Except String (Option Release))
    (currentVersion : String) : Except String (Option Release × Bool) :=
  match fetched with
  | .error e => .error ("error fetching latest release: " ++ e)
  | .ok none => .ok (none, false)
  | .ok (some release) =>
    if compareVersions currentVersion release.TagName ≥ 0 then .ok (some release, false)
    else .ok (some release, true)

/-! ## Channel classification and release filtering (`generic_http.go`) -/

/-- Embeds `determineChannel`: "alpha" substring wins, then "beta", then
the pre-release flag defaults to "beta", else "stable". -/
def determineChannel (tagName : String) (isPreRelease : Bool) : String :=
  let tagLower := goToLower tagName
  if goContains tagLower "alpha" then "alpha"
  else if goContains tagLower "beta" then "beta"
  else if isPreRelease then "beta"
  else "stable"

/-- Embeds `filterReleases`: the first release classified into the
requested channel, or none. -/
def filterReleases (releases : List Release) (channel : String) : Option Release :=
  match releases with
  | [] => none
  | release :: rest =>
    if determineChannel release.TagName release.PreRelease = channel then some release
    else filterReleases rest channel

/-! ## Artifact selection (`GetDownloadURL`) -/

/-- Embeds the `strings.NewReplacer("{tag}", .., "{os}", .., "{arch}", ..)`
single pass: at each position the patterns are tried in argument order and
replacement text is not rescanned. -/
def replaceTags (tag osName archName : String) : List Char → List Char
  | '{' :: 't' :: 'a' :: 'g' :: '}' :: rest => tag.data ++ replaceTags tag osName archName rest
  | '{' :: 'o' :: 's' :: '}' :: rest => osName.data ++ replaceTags tag osName archName rest
  | '{' :: 'a' :: 'r' :: 'c' :: 'h' :: '}' :: rest =>
    archName.data ++ replaceTags tag osName archName rest
  | c :: rest => c :: replaceTags tag osName archName rest
  | [] => []

/-- The first loop of `GetDownloadURL`: first asset whose lowercased name
contains both the OS and the architecture identifier. -/
def findAssetBoth (osName archName : String) : List ReleaseAsset → Option ReleaseAsset
  | [] => none
  | asset :: rest =>
    if goContains (goToLower asset.Name) osName ∧ goContains (goToLower asset.Name) archName then
      some asset
    else findAssetBoth osName archName rest

/-- The fallback loop of `GetDownloadURL`: first asset whose lowercased
name contains the OS identifier. -/
def findAssetOS (osName : String) : List ReleaseAsset → Option ReleaseAsset
  | [] => none
  | asset :: rest =>
    if goContains (goToLower asset.Name) osName then some asset
    else findAssetOS osName rest

/-- Embeds `GetDownloadURL`; `runtime.GOOS` / `runtime.GOARCH` become the
`osName` / `archName` parameters of the host platform. -/
def GetDownloadURL (osName archName : String) (release : Option Release)
    (releaseURLFormat : String) : Except String String :=
  match release with
  | none => .error "no release provided"
  | some release =>
    if releaseURLFormat ≠ "" then
      .ok (String.mk (replaceTags release.TagName osName archName releaseURLFormat.data))
    else
      match findAssetBoth osName archName release.Assets with
      | some asset => .ok asset.DownloadURL
      | none =>
        match findAssetOS osName release.Assets with
        | some asset => .ok asset.DownloadURL
        | none =>
          .error ("no suitable download asset found for " ++ osName ++ "/" ++ archName)

/-! ## Generic HTTP source (`GetLatestUpdateFromURL`) -/

/-- The observable part of the single GET of `<baseURL>/latest.json`:
the status code and the decoded body (`none` models a body the JSON
decoder rejects). -/
structure HTTPResponse where
  statusCode : Nat
  body : Option GenericUpdateInfo
  deriving DecidableEq, Repr

/-- Embeds the response handling of `GetLatestUpdateFromURL`: require 200,
require a decodable body, require both fields nonempty. -/
def GetLatestUpdateFromURL (resp : HTTPResponse) : Except String GenericUpdateInfo :=
  if resp.statusCode ≠ 200 then
    .error ("failed to fetch latest.json: status code " ++ toString resp.statusCode)
  else
    match resp.body with
    | none => .error "failed to parse latest.json"
    | some info =>
      if info.Version = "" ∨ info.URL = "" then
        .error "invalid latest.json content: version or url is missing"
      else .ok info

/-! ## Release lookup by pull request (`GetReleaseByPullRequest`) -/

/-- The matching loop of `GetReleaseByPullRequest`: first release whose tag
contains the marker substring. -/
def findByPR (prTag : String) : List Release → Option Release
  | [] => none
  | release :: rest =>
    if goContains release.TagName prTag then some release
    else findByPR prTag rest

/-- Embeds `GetReleaseByPullRequest` after the release list has been
fetched and decoded: build the `.pr.<number>` marker and scan. -/
def GetReleaseByPullRequest (releases : List Release) (prNumber : Nat) : Option Release :=
  findByPR (".pr." ++ toString prNumber) releases

/-! ## Pagination link header (`findNextURL`) -/

/-- `strings.TrimSpace` on a rune list. -/
def trimSpaceL (l : List Char) : List Char :=
  trimList isSpaceGo l

/-- `strings.Trim(s, "<>")` on a rune list. -/
def trimAngle (l : List Char) : List Char :=
  trimList (fun c => c = '<' || c = '>') l

/-- The per-part test of `findNextURL`: exactly two ';'-separated fields
and the trimmed second field is the literal next-relation attribute. -/
def linkIsNext (link : List Char) : Bool :=
  match splitOn ';' link with
  | [_, p1] => trimSpaceL p1 = "rel=\"next\"".data
  | _ => false

/-- The URL a matching part yields: the trimmed first field with angle
brackets removed. -/
def linkURL (link : List Char) : List Char :=
  match splitOn ';' link with
  | [p0, _] => trimAngle (trimSpaceL p0)
  | _ => []

/-- The loop of `findNextURL` over the ','-separated parts. -/
def findNextLoop : List (List Char) → List Char
  | [] => []
  | link :: rest => if linkIsNext link then linkURL link else findNextLoop rest

/-- Embeds `findNextURL`: the URL of the first part with the next
relation, or the empty string (the loop's stop sentinel). -/
def findNextURL (linkHeader : String) : String :=
  String.mk (findNextLoop (splitOn ',' linkHeader.data))

/-! ## Update service construction (`NewUpdateService`, `ParseRepoURL`) -/

/-- The part of `net/url.URL` the service consults. -/
structure GoURL where
  path : String
  deriving DecidableEq, Repr

/-- The service configuration. The Go field `ForceSemVerPrefix` is named
`ForceSemVer` here; `CheckOnStartup` keeps its Go `int` type. -/
structure UpdateServiceConfig where
  RepoURL : String
  Channel : String
  CurrentVersion : String
  CheckOnStartup : Int
  ForceSemVer : Bool
  ReleaseURLFormat : String
  deriving DecidableEq, Repr

/-- The constructed service. -/
structure UpdateService where
  config : UpdateServiceConfig
  isGitHub : Bool
  owner : String
  repo : String
  deriving DecidableEq, Repr

/-- Embeds `ParseRepoURL`, with `net/url.Parse` (an external library call)
supplied as an oracle returning either the parsed URL or a failure. -/
def ParseRepoURL (parseURL : String → Option GoURL) (repoURL : String) :
    Except String (String × String) :=
  match parseURL repoURL with
  | none => .error "url parse error"
  | some u =>
    match splitOn '/' (trimList (fun c => c = '/') u.path.data) with
    | p0 :: p1 :: _ => .ok (String.mk p0, String.mk p1)
    | _ => .error ("invalid repo URL path: " ++ u.path)

/-- Embeds `NewUpdateService`: GitHub-backed iff the URL contains
"github.com"; only that variant parses and validates the URL. -/
def NewUpdateService (parseURL : String → Option GoURL) (config : UpdateServiceConfig) :
    Except String UpdateService :=
  if goContains config.RepoURL "github.com" then
    match ParseRepoURL parseURL config.RepoURL with
    | .error e => .error ("failed to parse GitHub repo URL: " ++ e)
    | .ok (owner, repo) => .ok ⟨config, true, owner, repo⟩
  else .ok ⟨config, false, "", ""⟩

end Updater

namespace Updater

/-! ## Supporting lemmas -/

theorem goHasPre_v_append (a : String) : goHasPre ("v" ++ a) "v" = true := by
  show List.isPrefixOf "v".data ('v' :: a.data) = true
  simp [List.isPrefixOf]

theorem fmt_v_append (a : String) :
    formatVersionForComparison ("v" ++ a) = "v" ++ a := by
  unfold formatVersionForComparison
  rw [if_neg]
  intro h
  exact h.2 (goHasPre_v_append a)

theorem fmt_no_v (a : String) (ha : goHasPre a "v" = false) (hne : a ≠ "") :
    formatVersionForComparison a = "v" ++ a := by
  unfold formatVersionForComparison
  rw [if_pos ⟨hne, by simp [ha]⟩]

theorem cmp_congr_left (v w y : String) (hv : parseGo v.data = none)
    (hw : parseGo w.data = none) : goSemverCompare v y = goSemverCompare w y := by
  unfold goSemverCompare
  rw [hv, hw]

theorem cmp_congr_right (v w y : String) (hv : parseGo v.data = none)
    (hw : parseGo w.data = none) : goSemverCompare y v = goSemverCompare y w := by
  unfold goSemverCompare
  rw [hv, hw]

theorem fmt_cmp_left (a : String) (ha : goHasPre a "v" = false) (y : String) :
    goSemverCompare (formatVersionForComparison ("v" ++ a)) y
      = goSemverCompare (formatVersionForComparison a) y := by
  rw [fmt_v_append]
  by_cases hne : a = ""
  · subst hne
    rw [show ("v" ++ "" : String) = "v" from rfl,
      show formatVersionForComparison "" = "" from rfl]
    exact cmp_congr_left _ _ _ (by decide) (by decide)
  · rw [fmt_no_v a ha hne]

theorem fmt_cmp_right (a : String) (ha : goHasPre a "v" = false) (y : String) :
    goSemverCompare y (formatVersionForComparison ("v" ++ a))
      = goSemverCompare y (formatVersionForComparison a) := by
  rw [fmt_v_append]
  by_cases hne : a = ""
  · subst hne
    rw [show ("v" ++ "" : String) = "v" from rfl,
      show formatVersionForComparison "" = "" from rfl]
    exact cmp_congr_right _ _ _ (by decide) (by decide)
  · rw [fmt_no_v a ha hne]

theorem cmp_nonneg_right_invalid (v w : String) (hw : parseGo w.data = none) :
    0 ≤ goSemverCompare v w := by
  unfold goSemverCompare
  rw [hw]
  cases hv : parseGo v.data <;> simp

end Updater

namespace Updater

theorem findAssetBoth_eq_find (osName archName : String) (l : List ReleaseAsset) :
    findAssetBoth osName archName l
      = l.find? (fun a =>
          goContains (goToLower a.Name) osName && goContains (goToLower a.Name) archName) := by
  induction l with
  | nil => rfl
  | cons a t ih =>
    cases h1 : goContains (goToLower a.Name) osName <;>
      cases h2 : goContains (goToLower a.Name) archName <;>
        simp [findAssetBoth, List.find?, h1, h2, ih]

theorem findAssetOS_eq_find (osName : String) (l : List ReleaseAsset) :
    findAssetOS osName l = l.find? (fun a => goContains (goToLower a.Name) osName) := by
  induction l with
  | nil => rfl
  | cons a t ih =>
    cases h : goContains (goToLower a.Name) osName <;> simp [findAssetOS, List.find?, h, ih]

theorem findByPR_eq_find (prTag : String) (l : List Release) :
    findByPR prTag l = l.find? (fun r => goContains r.TagName prTag) := by
  induction l with
  | nil => rfl
  | cons r t ih =>
    cases h : goContains r.TagName prTag <;> simp [findByPR, List.find?, h, ih]

theorem findNextLoop_eq_nil (links : List (List Char))
    (h : ∀ l ∈ links, linkIsNext l = false) : findNextLoop links = [] := by
  induction links with
  | nil => rfl
  | cons l t ih =>
    simp only [findNextLoop]
    rw [if_neg (by simp [h l (List.mem_cons_self l t)])]
    exact ih fun x hx => h x (List.mem_cons_of_mem l hx)

theorem findNextLoop_mem (links : List (List Char)) (h : findNextLoop links ≠ []) :
    ∃ l ∈ links, linkIsNext l = true ∧ findNextLoop links = linkURL l := by
  induction links with
  | nil => simp [findNextLoop] at h
  | cons l t ih =>
    by_cases hl : linkIsNext l = true
    · exact ⟨l, List.mem_cons_self l t, hl, by simp [findNextLoop, hl]⟩
    · have h2 : findNextLoop (l :: t) = findNextLoop t := by
        simp only [findNextLoop]
        rw [if_neg (by simpa using hl)]
      rw [h2] at h
      obtain ⟨x, hx, hx1, hx2⟩ := ih h
      exact ⟨x, List.mem_cons_of_mem l hx, hx1, by rw [h2, hx2]⟩

end Updater

namespace Updater

/-! ## Claim theorems -/

/-- C1: for every release-source result, `CheckForNewerVersion` returns
`(nil, false, nil)` when no release is found; when a release is found it is
returned with `updateAvailable` true iff the candidate tag is strictly
greater than the current version under normalized semver comparison, an
equal or lesser candidate yields `(release, false, nil)`, and the found
case never produces an error. -/
theorem resolve_update_decision (r : Release) (cur : String) :
    CheckForNewerVersion (Except.ok none) cur = Except.ok (none, false)
    ∧ (∃ res, CheckForNewerVersion (Except.ok (some r)) cur = Except.ok res)
    ∧ (CheckForNewerVersion (Except.ok (some r)) cur = Except.ok (some r, true)
        ↔ compareVersions cur r.TagName < 0)
    ∧ (0 ≤ compareVersions cur r.TagName
        → CheckForNewerVersion (Except.ok (some r)) cur = Except.ok (some r, false)) := by
  have hdef : CheckForNewerVersion (Except.ok (some r)) cur
      = if compareVersions cur r.TagName ≥ 0 then Except.ok (some r, false)
        else Except.ok (some r, true) := rfl
  rw [hdef]
  by_cases h : compareVersions cur r.TagName ≥ 0
  · refine ⟨rfl, ⟨(some r, false), by rw [if_pos h]⟩, ?_, fun _ => by rw [if_pos h]⟩
    rw [if_pos h]
    constructor
    · intro hEq
      simp at hEq
    · intro hlt
      omega
  · refine ⟨rfl, ⟨(some r, true), by rw [if_neg h]⟩, ?_, fun hge => absurd hge h⟩
    rw [if_neg h]
    simp only [true_iff, Except.ok.injEq, Prod.mk.injEq, and_self, true_and]
    omega

/-- C1 witness: an equal candidate is reported as up to date with no error. -/
theorem resolve_update_decision_instance :
    CheckForNewerVersion (Except.ok (some ⟨"v1.1.0", false, []⟩)) "1.1.0"
      = Except.ok (some ⟨"v1.1.0", false, []⟩, false) :=
  (resolve_update_decision ⟨"v1.1.0", false, []⟩ "1.1.0").2.2.2 (by decide)

/-- C2: the inline comparison (normalize both sides, then semver-compare)
is invariant under adding a leading "v" to either or both operands of a
pair whose operands do not already carry one. -/
theorem compare_v_agnostic (a b : String) (ha : goHasPre a "v" = false)
    (hb : goHasPre b "v" = false) :
    compareVersions ("v" ++ a) b = compareVersions a b
    ∧ compareVersions a ("v" ++ b) = compareVersions a b
    ∧ compareVersions ("v" ++ a) ("v" ++ b) = compareVersions a b := by
  refine ⟨fmt_cmp_left a ha _, fmt_cmp_right b hb _, ?_⟩
  calc compareVersions ("v" ++ a) ("v" ++ b)
      = compareVersions a ("v" ++ b) := fmt_cmp_left a ha _
    _ = compareVersions a b := fmt_cmp_right b hb _

/-- C2 witness: the unprefixed pair ("1.0.0", "1.0.1") compares identically
to all of its v-prefixed variants. -/
theorem compare_v_agnostic_instance :
    compareVersions ("v" ++ "1.0.0") "1.0.1" = compareVersions "1.0.0" "1.0.1"
    ∧ compareVersions "1.0.0" ("v" ++ "1.0.1") = compareVersions "1.0.0" "1.0.1"
    ∧ compareVersions ("v" ++ "1.0.0") ("v" ++ "1.0.1") = compareVersions "1.0.0" "1.0.1" :=
  compare_v_agnostic "1.0.0" "1.0.1" (by decide) (by decide)

/-- C3: `determineChannel` classifies in priority order — an "alpha"
substring (case-insensitive) wins, then a "beta" substring, then a
pre-release flag defaults to beta (never alpha), else stable — and the
spec's five concrete examples classify accordingly. -/
theorem channel_priority (tag : String) (pre : Bool) :
    (goContains (goToLower tag) "alpha" = true → determineChannel tag pre = "alpha")
    ∧ (goContains (goToLower tag) "alpha" = false → goContains (goToLower tag) "beta" = true →
        determineChannel tag pre = "beta")
    ∧ (goContains (goToLower tag) "alpha" = false → goContains (goToLower tag) "beta" = false →
        determineChannel tag true = "beta")
    ∧ (goContains (goToLower tag) "alpha" = false → goContains (goToLower tag) "beta" = false →
        determineChannel tag false = "stable")
    ∧ determineChannel "v1.0.0-alpha.1" pre = "alpha"
    ∧ determineChannel "v1.0.0-beta.1" pre = "beta"
    ∧ determineChannel "v1.0.0-rc.1" true = "beta"
    ∧ determineChannel "v1.0.0" false = "stable"
    ∧ determineChannel "1.0.0-alpha.1" pre = "alpha" := by
  refine ⟨?_, ?_, ?_, ?_, ?_, ?_, by decide, by decide, ?_⟩
  · intro h1
    simp [determineChannel, h1]
  · intro h1 h2
    simp [determineChannel, h1, h2]
  · intro h1 h2
    simp [determineChannel, h1, h2]
  · intro h1 h2
    simp [determineChannel, h1, h2]
  · cases pre <;> decide
  · cases pre <;> decide
  · cases pre <;> decide

/-- C3 witness: an upper-case ALPHA tag classifies as alpha by the first
rule, and a plain tag with the pre-release flag set classifies as beta. -/
theorem channel_priority_instance :
    determineChannel "V2.0.0-ALPHA" false = "alpha"
    ∧ determineChannel "v2.0.0" true = "beta" :=
  ⟨(channel_priority "V2.0.0-ALPHA" false).1 (by decide),
   (channel_priority "v2.0.0" true).2.2.1 (by decide) (by decide)⟩

end Updater

namespace Updater

/-- C4: `GetDownloadURL` on a nil descriptor errors; with a non-empty
template it substitutes the placeholders and never inspects the assets;
with an empty template it takes the first asset matching both OS and
architecture, falls back to the first matching the OS alone, and errors
with "no suitable asset" otherwise — including the spec's concrete
template and asset-selection examples. -/
theorem download_url_selection (osName archName : String) (r : Release) (fmt : String) :
    GetDownloadURL osName archName none fmt = Except.error "no release provided"
    ∧ (fmt ≠ "" → GetDownloadURL osName archName (some r) fmt
        = Except.ok (String.mk (replaceTags r.TagName osName archName fmt.data)))
    ∧ (fmt ≠ "" → ∀ assets' : List ReleaseAsset,
        GetDownloadURL osName archName (some r) fmt
          = GetDownloadURL osName archName (some { r with Assets := assets' }) fmt)
    ∧ (GetDownloadURL osName archName (some r) ""
        = match r.Assets.find? (fun a =>
              goContains (goToLower a.Name) osName && goContains (goToLower a.Name) archName) with
          | some a => Except.ok a.DownloadURL
          | none =>
            match r.Assets.find? (fun a => goContains (goToLower a.Name) osName) with
            | some a => Except.ok a.DownloadURL
            | none =>
              Except.error ("no suitable download asset found for " ++ osName ++ "/" ++ archName))
    ∧ GetDownloadURL "linux" "amd64" (some ⟨"v1.0.0", false, r.Assets⟩) "http://x/{tag}-{os}-{arch}"
        = Except.ok "http://x/v1.0.0-linux-amd64"
    ∧ GetDownloadURL "linux" "amd64"
        (some ⟨"v1", false, [⟨"app-linux-amd64", "u1"⟩, ⟨"app-windows-amd64", "u2"⟩]⟩) ""
        = Except.ok "u1"
    ∧ GetDownloadURL "linux" "amd64" (some ⟨"v1", false, [⟨"app-darwin-arm64", "u3"⟩]⟩) ""
        = Except.error "no suitable download asset found for linux/amd64" := by
  have hdef : ∀ rr : Release, ∀ f : String, GetDownloadURL osName archName (some rr) f
      = (if f ≠ "" then
          Except.ok (String.mk (replaceTags rr.TagName osName archName f.data))
        else
          match findAssetBoth osName archName rr.Assets with
          | some asset => Except.ok asset.DownloadURL
          | none =>
            match findAssetOS osName rr.Assets with
            | some asset => Except.ok asset.DownloadURL
            | none =>
              Except.error ("no suitable download asset found for " ++ osName ++ "/" ++ archName)) :=
    fun _ _ => rfl
  refine ⟨rfl, ?_, ?_, ?_, ?_, by decide, by decide⟩
  · intro hfmt
    rw [hdef, if_pos hfmt]
  · intro hfmt assets'
    rw [hdef, hdef, if_pos hfmt, if_pos hfmt]
  · rw [hdef, if_neg (by simp), findAssetBoth_eq_find, findAssetOS_eq_find]
  · have h5 : GetDownloadURL "linux" "amd64" (some ⟨"v1.0.0", false, r.Assets⟩)
        "http://x/{tag}-{os}-{arch}"
        = Except.ok (String.mk (replaceTags "v1.0.0" "linux" "amd64"
            "http://x/{tag}-{os}-{arch}".data)) := rfl
    rw [h5]
    decide

/-- C4 witness: with a non-empty template the URL is built by placeholder
substitution and is independent of the asset list. -/
theorem download_url_selection_instance :
    GetDownloadURL "linux" "amd64" (some ⟨"v1.0.0", false, []⟩) "http://x/{tag}-{os}-{arch}"
      = Except.ok (String.mk (replaceTags "v1.0.0" "linux" "amd64"
          "http://x/{tag}-{os}-{arch}".data))
    ∧ GetDownloadURL "linux" "amd64" (some ⟨"v1.0.0", false, []⟩) "http://x/{tag}-{os}-{arch}"
      = GetDownloadURL "linux" "amd64"
          (some ⟨"v1.0.0", false, [⟨"ignored", "u9"⟩]⟩) "http://x/{tag}-{os}-{arch}" :=
  ⟨(download_url_selection "linux" "amd64" ⟨"v1.0.0", false, []⟩
      "http://x/{tag}-{os}-{arch}").2.1 (by decide),
   (download_url_selection "linux" "amd64" ⟨"v1.0.0", false, []⟩
      "http://x/{tag}-{os}-{arch}").2.2.1 (by decide) [⟨"ignored", "u9"⟩]⟩

/-- C5 counterexample: `filterReleases` does return a descriptor whose tag
is the empty string — an empty, non-pre-release tag classifies as stable
and is selected for the stable channel rather than being reported as
absence. -/
theorem empty_tag_descriptor_returned :
    filterReleases [⟨"", false, []⟩] "stable" = some ⟨"", false, []⟩
    ∧ determineChannel "" false = "stable" := by decide

/-- C5 amended: when every fetched release carries a non-empty tag, any
descriptor `filterReleases` returns has a non-empty tag. -/
theorem filter_preserves_nonempty_tags (channel : String) (r : Release) :
    ∀ releases : List Release, (∀ x ∈ releases, x.TagName ≠ "") →
      filterReleases releases channel = some r → r.TagName ≠ "" := by
  intro releases
  induction releases with
  | nil => intro _ hf; simp [filterReleases] at hf
  | cons x t ih =>
    intro hall hf
    simp only [filterReleases] at hf
    by_cases hc : determineChannel x.TagName x.PreRelease = channel
    · rw [if_pos hc] at hf
      have hx : x = r := by injection hf
      rw [← hx]
      exact hall x (List.mem_cons_self x t)
    · rw [if_neg hc] at hf
      exact ih (fun y hy => hall y (List.mem_cons_of_mem x hy)) hf

/-- C5 amended witness: a stable release list with a non-empty tag yields
a descriptor with a non-empty tag. -/
theorem filter_preserves_nonempty_tags_instance :
    ("v1.0.0" : String) ≠ "" :=
  filter_preserves_nonempty_tags "stable" ⟨"v1.0.0", false, []⟩
    [⟨"v1.0.0", false, []⟩] (by decide) (by decide)

end Updater

namespace Updater

/-- C6 counterexample: "garbage" normalizes to the malformed "vgarbage",
yet the check against the well-formed candidate "v1.0.0" reports an update
available — degenerate input is not always treated as "no update". -/
theorem malformed_current_reports_update :
    parseGo (formatVersionForComparison "garbage").data = none
    ∧ CheckForNewerVersion (Except.ok (some ⟨"v1.0.0", false, []⟩)) "garbage"
        = Except.ok (some ⟨"v1.0.0", false, []⟩, true) := by decide

/-- C6 amended: the comparison is total with the malformed side smallest
(two malformed versions are equal), the check never errors on a found
release, a malformed candidate tag always yields "no update", and a
malformed current version against a well-formed candidate yields
"update available" — never a crash or error. -/
theorem malformed_compare_smallest (v w cur : String) (r : Release) :
    (parseGo v.data = none → parseGo w.data = none → goSemverCompare v w = 0)
    ∧ (parseGo v.data = none → parseGo w.data ≠ none → goSemverCompare v w = -1)
    ∧ (parseGo v.data ≠ none → parseGo w.data = none → goSemverCompare v w = 1)
    ∧ (parseGo (formatVersionForComparison r.TagName).data = none →
        CheckForNewerVersion (Except.ok (some r)) cur = Except.ok (some r, false))
    ∧ (parseGo (formatVersionForComparison cur).data = none →
        parseGo (formatVersionForComparison r.TagName).data ≠ none →
        CheckForNewerVersion (Except.ok (some r)) cur = Except.ok (some r, true))
    ∧ (∃ res, CheckForNewerVersion (Except.ok (some r)) cur = Except.ok res) := by
  have hdef : CheckForNewerVersion (Except.ok (some r)) cur
      = if compareVersions cur r.TagName ≥ 0 then Except.ok (some r, false)
        else Except.ok (some r, true) := rfl
  refine ⟨?_, ?_, ?_, ?_, ?_, ?_⟩
  · intro hv hw
    unfold goSemverCompare
    rw [hv, hw]
  · intro hv hw
    unfold goSemverCompare
    rw [hv]
    cases hw2 : parseGo w.data with
    | none => exact absurd hw2 hw
    | some p => rfl
  · intro hv hw
    unfold goSemverCompare
    rw [hw]
    cases hv2 : parseGo v.data with
    | none => exact absurd hv2 hv
    | some p => rfl
  · intro hinv
    have hge : compareVersions cur r.TagName ≥ 0 := cmp_nonneg_right_invalid _ _ hinv
    rw [hdef, if_pos hge]
  · intro hcur hcand
    rw [hdef, if_neg ?_]
    have hneg : compareVersions cur r.TagName = -1 := by
      unfold compareVersions goSemverCompare
      rw [hcur]
      cases hw2 : parseGo (formatVersionForComparison r.TagName).data with
      | none => exact absurd hw2 hcand
      | some p => rfl
    rw [hneg]
    decide
  · by_cases hc : compareVersions cur r.TagName ≥ 0
    · exact ⟨(some r, false), by rw [hdef, if_pos hc]⟩
    · exact ⟨(some r, true), by rw [hdef, if_neg hc]⟩

/-- C6 amended witness: a malformed pair compares equal, malformed versus
valid compares -1, and a malformed candidate tag yields "no update". -/
theorem malformed_compare_smallest_instance :
    goSemverCompare "vjunk" "vmess" = 0
    ∧ goSemverCompare "vjunk" "v1.0.0" = -1
    ∧ CheckForNewerVersion (Except.ok (some ⟨"not-semver!", false, []⟩)) "1.0.0"
        = Except.ok (some ⟨"not-semver!", false, []⟩, false) :=
  ⟨(malformed_compare_smallest "vjunk" "vmess" "1.0.0" ⟨"not-semver!", false, []⟩).1
      (by decide) (by decide),
   (malformed_compare_smallest "vjunk" "v1.0.0" "1.0.0" ⟨"not-semver!", false, []⟩).2.1
      (by decide) (by decide),
   (malformed_compare_smallest "vjunk" "v1.0.0" "1.0.0" ⟨"not-semver!", false, []⟩).2.2.2.1
      (by decide)⟩

/-- C7: the single-response contract of `GetLatestUpdateFromURL` — the call
succeeds iff the status is 200 and the body decodes with both `version`
and `url` non-empty, in which case exactly those two field values are
returned; a non-200 status, an undecodable body, or an empty/missing
field each produce an error. -/
theorem latest_json_contract (resp : HTTPResponse) (info : GenericUpdateInfo) :
    (GetLatestUpdateFromURL resp = Except.ok info ↔
      resp.statusCode = 200 ∧ resp.body = some info ∧ info.Version ≠ "" ∧ info.URL ≠ "")
    ∧ (resp.statusCode ≠ 200 → ∃ e, GetLatestUpdateFromURL resp = Except.error e)
    ∧ (resp.body = none → ∃ e, GetLatestUpdateFromURL resp = Except.error e)
    ∧ (∀ i, resp.body = some i → i.Version = "" ∨ i.URL = "" →
        ∃ e, GetLatestUpdateFromURL resp = Except.error e) := by
  obtain ⟨code, body⟩ := resp
  by_cases hs : code = 200
  · subst hs
    rcases body with _ | i
    · refine ⟨?_, fun h => absurd rfl h, fun _ => ⟨"failed to parse latest.json", rfl⟩,
        fun i hi => by cases hi⟩
      simp [GetLatestUpdateFromURL]
    · by_cases hv : i.Version = "" ∨ i.URL = ""
      · have herr : GetLatestUpdateFromURL ⟨200, some i⟩
            = Except.error "invalid latest.json content: version or url is missing" := by
          simp only [GetLatestUpdateFromURL]
          rw [if_neg (by omega), if_pos hv]
        refine ⟨?_, fun h => absurd rfl h, fun h => by simp at h, fun j hj hbad => ⟨_, herr⟩⟩
        rw [herr]
        constructor
        · intro h
          cases h
        · rintro ⟨-, hsome, hver, hurl⟩
          injection hsome with hji
          subst hji
          rcases hv with hv | hv
          · exact absurd hv hver
          · exact absurd hv hurl
      · have hok : GetLatestUpdateFromURL ⟨200, some i⟩ = Except.ok i := by
          simp only [GetLatestUpdateFromURL]
          rw [if_neg (by omega), if_neg hv]
        refine ⟨?_, fun h => absurd rfl h, fun h => by simp at h, fun j hj hbad => ?_⟩
        · rw [hok]
          constructor
          · intro h
            injection h with hi2
            subst hi2
            push_neg at hv
            exact ⟨rfl, rfl, hv.1, hv.2⟩
          · rintro ⟨-, hsome, -, -⟩
            injection hsome with hji
            rw [hji]
        · injection hj with hji
          subst hji
          exact absurd hbad hv
  · have herr : GetLatestUpdateFromURL ⟨code, body⟩
        = Except.error ("failed to fetch latest.json: status code " ++ toString code) := by
      simp only [GetLatestUpdateFromURL]
      rw [if_pos hs]
    refine ⟨?_, fun _ => ⟨_, herr⟩, fun _ => ⟨_, herr⟩, fun i hi hbad => ⟨_, herr⟩⟩
    rw [herr]
    constructor
    · intro h
      cases h
    · rintro ⟨h200, -, -, -⟩
      exact absurd h200 hs

/-- C7 witness: a 200 response with both fields present succeeds with
exactly those values; a 404 response errors. -/
theorem latest_json_contract_instance :
    GetLatestUpdateFromURL ⟨200, some ⟨"1.2.3", "http://x/u"⟩⟩ = Except.ok ⟨"1.2.3", "http://x/u"⟩
    ∧ (∃ e, GetLatestUpdateFromURL ⟨404, some ⟨"1.2.3", "http://x/u"⟩⟩ = Except.error e) :=
  ⟨(latest_json_contract ⟨200, some ⟨"1.2.3", "http://x/u"⟩⟩ ⟨"1.2.3", "http://x/u"⟩).1.mpr
      ⟨by decide, by decide, by decide, by decide⟩,
   (latest_json_contract ⟨404, some ⟨"1.2.3", "http://x/u"⟩⟩ ⟨"1.2.3", "http://x/u"⟩).2.1
      (by decide)⟩

/-- C8 counterexample: asking for PR 123 returns the release tagged
"v1.0.0-alpha.pr.1234" — whose tag does not end in ".pr.123" and which
encodes PR 1234 — because the code matches the marker as a substring, not
as a suffix. -/
theorem pr_match_not_suffix :
    GetReleaseByPullRequest [⟨"v1.0.0-alpha.pr.1234", false, []⟩] 123
        = some ⟨"v1.0.0-alpha.pr.1234", false, []⟩
    ∧ List.isSuffixOf (".pr." ++ toString 123).data "v1.0.0-alpha.pr.1234".data = false := by
  decide

/-- C8 amended: `GetReleaseByPullRequest` returns the first release whose
tag contains ".pr.n" as a substring (anywhere, not necessarily as a
suffix), and none — not an error — exactly when no tag contains it. -/
theorem pr_match_by_substring (releases : List Release) (n : Nat) :
    GetReleaseByPullRequest releases n
      = releases.find? (fun r => goContains r.TagName (".pr." ++ toString n))
    ∧ (GetReleaseByPullRequest releases n = none ↔
        ∀ r ∈ releases, goContains r.TagName (".pr." ++ toString n) = false) := by
  have h1 := findByPR_eq_find (".pr." ++ toString n) releases
  refine ⟨h1, ?_⟩
  rw [show GetReleaseByPullRequest releases n
      = findByPR (".pr." ++ toString n) releases from rfl, h1]
  simp [List.find?_eq_none]

/-- C8 amended witness: PR 7 selects the first release containing ".pr.7"
and a list without the marker yields none. -/
theorem pr_match_by_substring_instance :
    GetReleaseByPullRequest [⟨"v1.0.0", false, []⟩, ⟨"v1.1.0-beta.pr.7", false, []⟩] 7
      = [⟨"v1.0.0", false, []⟩, ⟨"v1.1.0-beta.pr.7", false, []⟩].find?
          (fun r => goContains r.TagName (".pr." ++ toString 7)) :=
  (pr_match_by_substring [⟨"v1.0.0", false, []⟩, ⟨"v1.1.0-beta.pr.7", false, []⟩] 7).1

end Updater

namespace Updater

/-- C9: `findNextURL` yields a URL only from a header part whose trimmed
relation attribute is exactly the next relation; when no part carries it
the result is the empty string — the loop's stop sentinel — so a header
holding only a prev relation terminates pagination without following any
URL. -/
theorem next_link_only (hdr : String) :
    ((∀ link ∈ splitOn ',' hdr.data, linkIsNext link = false) → findNextURL hdr = "")
    ∧ (findNextURL hdr ≠ "" →
        ∃ link ∈ splitOn ',' hdr.data, linkIsNext link = true
          ∧ findNextURL hdr = String.mk (linkURL link))
    ∧ findNextURL "<https://x/p1>; rel=\"prev\"" = ""
    ∧ findNextURL "<https://x/p2>; rel=\"next\", <https://x/p1>; rel=\"prev\"" = "https://x/p2" := by
  refine ⟨?_, ?_, by decide, by decide⟩
  · intro hall
    unfold findNextURL
    rw [findNextLoop_eq_nil _ hall]
  · intro hne
    have h2 : findNextLoop (splitOn ',' hdr.data) ≠ [] := by
      intro hc
      apply hne
      unfold findNextURL
      rw [hc]
    obtain ⟨l, hm, h1, hu⟩ := findNextLoop_mem _ h2
    exact ⟨l, hm, h1, by unfold findNextURL; rw [hu]⟩

end Updater

namespace Updater

/-- C9 witness: a header with only a prev relation yields the empty
string, obtained from the general no-next-part clause. -/
theorem next_link_only_instance :
    findNextURL "<https://x/p0>; rel=\"prev\"" = "" :=
  (next_link_only "<https://x/p0>; rel=\"prev\"").1 (by decide)

/-- Characterization of the error outcomes of `ParseRepoURL` over the
`net/url.Parse` oracle: it fails exactly when the oracle rejects the URL
or the trimmed path splits into fewer than two segments. -/
theorem parseRepo_error_iff (parseURL : String → Option GoURL) (repoURL : String) :
    (∃ e, ParseRepoURL parseURL repoURL = Except.error e) ↔
      (parseURL repoURL = none ∨ ∃ u, parseURL repoURL = some u ∧
        (splitOn '/' (trimList (fun c => c = '/') u.path.data)).length < 2) := by
  unfold ParseRepoURL
  rcases hp : parseURL repoURL with _ | u
  · simp
  · simp only [hp, Option.some.injEq, reduceCtorEq, false_or]
    rcases hsp : splitOn '/' (trimList (fun c => c = '/') u.path.data) with _ | ⟨p0, t⟩
    · constructor
      · intro _
        exact ⟨u, rfl, by rw [hsp]; simp⟩
      · intro _
        exact ⟨_, rfl⟩
    · rcases t with _ | ⟨p1, t2⟩
      · constructor
        · intro _
          exact ⟨u, rfl, by rw [hsp]; simp⟩
        · intro _
          exact ⟨_, rfl⟩
      · constructor
        · rintro ⟨e, he⟩
          cases he
        · rintro ⟨u', hu', hlen⟩
          subst hu'
          rw [hsp] at hlen
          simp at hlen
          omega
end Updater

namespace Updater

/-- C10: `NewUpdateService` classifies the service solely by whether the
URL contains "github.com": without that substring it always succeeds as
HTTP-backed with no URL validation; construction errors exactly when the
substring is present and the URL fails to parse or its trimmed path has
fewer than two segments. -/
theorem service_construction (parseURL : String → Option GoURL)
    (config : UpdateServiceConfig) :
    (goContains config.RepoURL "github.com" = false →
      NewUpdateService parseURL config = Except.ok ⟨config, false, "", ""⟩)
    ∧ ((∃ e, NewUpdateService parseURL config = Except.error e) ↔
        goContains config.RepoURL "github.com" = true ∧
          (parseURL config.RepoURL = none ∨ ∃ u, parseURL config.RepoURL = some u ∧
            (splitOn '/' (trimList (fun c => c = '/') u.path.data)).length < 2))
    ∧ (∀ s, NewUpdateService parseURL config = Except.ok s →
        s.isGitHub = goContains config.RepoURL "github.com") := by
  by_cases hg : goContains config.RepoURL "github.com" = true
  · refine ⟨fun hfalse => absurd hg (by simp [hfalse]), ?_, ?_⟩
    · unfold NewUpdateService
      rw [if_pos hg]
      rcases hEr : ParseRepoURL parseURL config.RepoURL with e | ⟨o, rp⟩
      · constructor
        · intro _
          exact ⟨hg, (parseRepo_error_iff _ _).mp ⟨e, hEr⟩⟩
        · intro _
          exact ⟨_, rfl⟩
      · constructor
        · rintro ⟨e', he'⟩
          cases he'
        · rintro ⟨-, hrhs⟩
          obtain ⟨e, he⟩ := (parseRepo_error_iff parseURL config.RepoURL).mpr hrhs
          rw [hEr] at he
          cases he
    · intro s hs
      unfold NewUpdateService at hs
      rw [if_pos hg] at hs
      rcases hEr : ParseRepoURL parseURL config.RepoURL with e | ⟨o, rp⟩ <;> rw [hEr] at hs
      · cases hs
      · injection hs with h
        rw [← h, hg]
  · have hg' : goContains config.RepoURL "github.com" = false := by
      cases hgb : goContains config.RepoURL "github.com"
      · rfl
      · exact absurd hgb hg
    have hok : NewUpdateService parseURL config = Except.ok ⟨config, false, "", ""⟩ := by
      unfold NewUpdateService
      rw [if_neg hg]
    refine ⟨fun _ => hok, ?_, ?_⟩
    · constructor
      · rintro ⟨e, he⟩
        rw [hok] at he
        cases he
      · rintro ⟨h1, -⟩
        exact absurd h1 hg
    · intro s hs
      rw [hok] at hs
      injection hs with h
      rw [← h, hg']

/-- C10 witness: a non-GitHub server URL constructs an HTTP-backed service
without consulting the URL parser, even one that rejects every URL. -/
theorem service_construction_instance :
    NewUpdateService (fun _ => none)
        ⟨"https://example.com/updates", "stable", "1.0.0", 0, false, ""⟩
      = Except.ok ⟨⟨"https://example.com/updates", "stable", "1.0.0", 0, false, ""⟩,
          false, "", ""⟩ :=
  (service_construction (fun _ => none)
      ⟨"https://example.com/updates", "stable", "1.0.0", 0, false, ""⟩).1 (by decide)

end Updater
